import Mathlib

/-!
Verification of the OJFill problem-collection pipeline.

Shallow embedding of the Python sources:
- `models/problem.py`   : `Problem` dataclass and its `__post_init__`
- `exporter/export.py`  : `Exporter.sort_problems` (platform priority map, rating key)
- `clist/fetcher.py`    : `ClistFetcher.search_problem`, `fetch_rating`, `fetch_ratings_batch`
- `crawlers/codeforces.py`, `crawlers/atcoder.py`, `crawlers/leetcode.py` :
  submission grouping and unsolved/unattempted computation
- `main.py`             : `crawl_all_problems` and the `main` pipeline glue

Network I/O is modelled by passing the responses the HTTP layer would
deliver as explicit inputs (a response per attempt / per problem); sleeps
and diagnostic prints are modelled as an event log, since the Python code
observably sleeps and prints on each retry path.
-/

/-- Association-list lookup, first binding wins (models Python `dict`
lookup where we build the dict so the newest binding is in front). -/
def alookup {κ β : Type} [DecidableEq κ] : List (κ × β) → κ → Option β
  | [], _ => none
  | (k, v) :: m, k' => if k' = k then some v else alookup m k'

/-- Python `str.lower()` (character-wise, executable form of
`String.toLower`). -/
def lowerString (s : String) : String := ⟨s.data.map Char.toLower⟩

/-- Python `str.upper()`. -/
def upperString (s : String) : String := ⟨s.data.map Char.toUpper⟩

/-- Python `str.strip()`: whitespace removed from both ends. -/
def trimString (s : String) : String :=
  ⟨((s.data.dropWhile Char.isWhitespace).reverse.dropWhile Char.isWhitespace).reverse⟩

/-! ## `models/problem.py` : the `Problem` dataclass -/

/-- Field-for-field image of the `Problem` dataclass, including the
`problem_id` attribute that `__post_init__` adds. -/
structure Problem where
  platform : String
  contest_id : String
  problem_index : String
  title : Option String
  url : String
  clist_rating : Option Int
  problem_id : String
deriving Repr, DecidableEq

/-- `Problem(...)` construction: runs the dataclass `__init__`
(`clist_rating` defaults to `None`) followed by `__post_init__`, which
derives `problem_id` and, when `url` was not given, the default url.
Mirrors `models/problem.py` lines 15-30. -/
def mkProblem (platform contest_id problem_index : String)
    (title : Option String) (url : String) : Problem :=
  if platform = "codeforces" then
    { platform := platform, contest_id := contest_id, problem_index := problem_index,
      title := title, clist_rating := none,
      url := if url = "" then
          "https://codeforces.com/contest/" ++ contest_id ++ "/problem/" ++ problem_index
        else url,
      problem_id := "CF-" ++ contest_id ++ "-" ++ problem_index }
  else if platform = "atcoder" then
    { platform := platform, contest_id := contest_id, problem_index := problem_index,
      title := title, clist_rating := none,
      url := if url = "" then
          "https://atcoder.jp/contests/" ++ contest_id ++ "/tasks/" ++ problem_index
        else url,
      problem_id := "AT-" ++ contest_id ++ "-" ++ lowerString problem_index }
  else if platform = "leetcode" then
    { platform := platform, contest_id := contest_id, problem_index := problem_index,
      title := title, clist_rating := none,
      url := if url = "" then
          "https://leetcode.com/problems/" ++ contest_id ++ "/"
        else url,
      problem_id := "LC-" ++ contest_id }
  else
    { platform := platform, contest_id := contest_id, problem_index := problem_index,
      title := title, clist_rating := none, url := url,
      problem_id := upperString platform ++ "-" ++ contest_id ++ "-" ++ problem_index }

/-! ## `exporter/export.py` : `Exporter.sort_problems` -/

/-- The default `Exporter.PLATFORM_PRIORITY` class attribute. -/
def PLATFORM_PRIORITY : List (String × Int) :=
  [("codeforces", 1), ("atcoder", 2), ("leetcode", 3)]

/-- `Exporter.PLATFORM_PRIORITY.get(problem.platform, 99)`. -/
def priorityOf (prio : List (String × Int)) (platform : String) : Int :=
  (alookup prio platform).getD 99

/-- The `sort_key` closure in `sort_problems`: `(rating, priority)` with
an unset rating replaced by the sentinel `99999`. -/
def sortKey (prio : List (String × Int)) (p : Problem) : Int × Int :=
  ((p.clist_rating).getD 99999, priorityOf prio p.platform)

/-- Lexicographic comparison on the `(rating, priority)` sort key, the
order Python uses to compare the key tuples. -/
def keyLe (a b : Int × Int) : Prop :=
  a.1 < b.1 ∨ (a.1 = b.1 ∧ a.2 ≤ b.2)

instance : DecidablePred fun ab : (Int × Int) × (Int × Int) => keyLe ab.1 ab.2 :=
  fun _ => by unfold keyLe; infer_instance

instance (a b : Int × Int) : Decidable (keyLe a b) := by unfold keyLe; infer_instance

theorem keyLe_total (a b : Int × Int) : keyLe a b ∨ keyLe b a := by
  unfold keyLe; omega

theorem keyLe_trans {a b c : Int × Int} (h1 : keyLe a b) (h2 : keyLe b c) : keyLe a c := by
  unfold keyLe at *; omega

theorem keyLe_of_not {a b : Int × Int} (h : ¬ keyLe a b) : keyLe b a ∧ b ≠ a := by
  unfold keyLe at *
  constructor
  · omega
  · intro he; subst he; omega

/-- Stable insertion of one element into an already-produced list:
the element goes in front of the first entry whose key it is `keyLe`-below
(in particular in front of all entries with an equal key). -/
def ordInsert (prio : List (String × Int)) (p : Problem) : List Problem → List Problem
  | [] => [p]
  | q :: qs =>
    if keyLe (sortKey prio p) (sortKey prio q) then p :: q :: qs
    else q :: ordInsert prio p qs

/-- `Exporter.sort_problems`: Python's `sorted(problems, key=sort_key)` is
the stable sort by `sort_key`; a stable sort with respect to a total
preorder on keys is extensionally unique, so insertion sort is a faithful
embedding of it. -/
def sort_problems (prio : List (String × Int)) : List Problem → List Problem
  | [] => []
  | p :: ps => ordInsert prio p (sort_problems prio ps)

theorem mem_ordInsert {prio p x} {l : List Problem} :
    x ∈ ordInsert prio p l ↔ x = p ∨ x ∈ l := by
  induction l with
  | nil => simp [ordInsert]
  | cons q qs ih =>
    by_cases h : keyLe (sortKey prio p) (sortKey prio q)
    · simp [ordInsert, h, ih]
    · simp [ordInsert, h, ih]
      tauto

theorem ordInsert_perm (prio : List (String × Int)) (p : Problem) (l : List Problem) :
    (ordInsert prio p l).Perm (p :: l) := by
  induction l with
  | nil => simp [ordInsert]
  | cons q qs ih =>
    by_cases h : keyLe (sortKey prio p) (sortKey prio q)
    · simp [ordInsert, h]
    · simp only [ordInsert, h, if_false]
      exact (List.Perm.cons q ih).trans (List.Perm.swap p q qs)

theorem sort_problems_perm (prio : List (String × Int)) (l : List Problem) :
    (sort_problems prio l).Perm l := by
  induction l with
  | nil => simp [sort_problems]
  | cons p ps ih =>
    exact (ordInsert_perm prio p (sort_problems prio ps)).trans (List.Perm.cons p ih)

theorem ordInsert_pairwise {prio p} {l : List Problem}
    (h : l.Pairwise (fun a b => keyLe (sortKey prio a) (sortKey prio b))) :
    (ordInsert prio p l).Pairwise (fun a b => keyLe (sortKey prio a) (sortKey prio b)) := by
  induction l with
  | nil => simp [ordInsert]
  | cons q qs ih =>
    rcases List.pairwise_cons.mp h with ⟨hq, hqs⟩
    by_cases hle : keyLe (sortKey prio p) (sortKey prio q)
    · simp only [ordInsert, hle, if_true]
      refine List.pairwise_cons.mpr ⟨?_, h⟩
      intro a ha
      rcases List.mem_cons.mp ha with rfl | ha
      · exact hle
      · exact keyLe_trans hle (hq a ha)
    · simp only [ordInsert, hle, if_false]
      refine List.pairwise_cons.mpr ⟨?_, ih hqs⟩
      intro a ha
      rcases mem_ordInsert.mp ha with rfl | ha
      · exact (keyLe_of_not hle).1
      · exact hq a ha

theorem sort_problems_pairwise (prio : List (String × Int)) (l : List Problem) :
    (sort_problems prio l).Pairwise (fun a b => keyLe (sortKey prio a) (sortKey prio b)) := by
  induction l with
  | nil => simp [sort_problems]
  | cons p ps ih => exact ordInsert_pairwise ih

/-- The elements whose sort key is exactly `k`, in list order: the
observable through which stability is stated. -/
def keyFilter (prio : List (String × Int)) (k : Int × Int) (l : List Problem) : List Problem :=
  l.filter (fun q => decide (sortKey prio q = k))

theorem keyFilter_ordInsert (prio : List (String × Int)) (p : Problem)
    (k : Int × Int) (l : List Problem) :
    keyFilter prio k (ordInsert prio p l) =
      if sortKey prio p = k then p :: keyFilter prio k l else keyFilter prio k l := by
  induction l with
  | nil =>
    by_cases h : sortKey prio p = k <;> simp [ordInsert, keyFilter, h]
  | cons q qs ih =>
    by_cases hle : keyLe (sortKey prio p) (sortKey prio q)
    · simp only [ordInsert, if_pos hle]
      by_cases h : sortKey prio p = k <;> simp [keyFilter, h]
    · have hne : sortKey prio q ≠ sortKey prio p := (keyLe_of_not hle).2
      by_cases hq : sortKey prio q = k
      · have hp : ¬ sortKey prio p = k := by
          intro hp; exact hne (hq.trans hp.symm)
        simp only [ordInsert, hle, if_false]
        simp [keyFilter, hq, hp] at ih ⊢
        exact ih
      · by_cases hp : sortKey prio p = k <;>
          · simp only [ordInsert, hle, if_false]
            simp [keyFilter, hq, hp] at ih ⊢
            exact ih

theorem sort_problems_stable (prio : List (String × Int)) (k : Int × Int) (l : List Problem) :
    keyFilter prio k (sort_problems prio l) = keyFilter prio k l := by
  induction l with
  | nil => rfl
  | cons p ps ih =>
    have h1 : sort_problems prio (p :: ps) = ordInsert prio p (sort_problems prio ps) := rfl
    rw [h1, keyFilter_ordInsert]
    by_cases hp : sortKey prio p = k
    · rw [if_pos hp, ih]; simp [keyFilter, hp]
    · rw [if_neg hp, ih]; simp [keyFilter, hp]

/-! ## `clist/fetcher.py` : `ClistFetcher` -/

/-- One entry of the `objects` array of a Clist API response; the code
only ever reads its `rating` field (`fetcher.py` line 127). -/
structure ClistObj where
  rating : Option Int
deriving Repr, DecidableEq

/-- What one `session.get` inside the retry loop can deliver:
either a response with a status code and the parsed `objects` list, or a
`requests.RequestException` raised by the transport (timeout, reset). -/
inductive HttpResp
  | resp (code : Nat) (objs : List ClistObj)
  | netError
deriving Repr, DecidableEq

/-- Observable events of `search_problem`: each retry path prints a
diagnostic and (except on give-up) sleeps, `fetcher.py` lines 76-82 and
98-105.  `rateLimitWait`/`requestFailWait` carry the `time.sleep` seconds. -/
inductive LogEvent
  | rateLimitWait (sec : Nat)
  | rateLimitGiveUp
  | requestFailWait (sec : Nat)
  | requestFailGiveUp
deriving Repr, DecidableEq

/-- The sleep durations among a list of events, in order. -/
def sleepsOf : List LogEvent → List Nat
  | [] => []
  | .rateLimitWait s :: es => s :: sleepsOf es
  | .requestFailWait s :: es => s :: sleepsOf es
  | .rateLimitGiveUp :: es => sleepsOf es
  | .requestFailGiveUp :: es => sleepsOf es

/-- Result of one `search_problem` call: the returned problem info (or
`None`), the `PROBLEM_CACHE` afterwards, the event log, and the number of
`session.get` network calls performed. -/
structure FetchResult where
  found : Option ClistObj
  cache : List (String × ClistObj)
  events : List LogEvent
  calls : Nat
deriving Repr, DecidableEq

/-- The `for attempt in range(max_retries)` loop of `search_problem`
(`fetcher.py` lines 62-108).  `resp attempt` is the response the network
delivers to the attempt-th `session.get`.  `remaining` counts the loop
iterations still allowed, so `attempt < max_retries - 1` is `remaining > 1`.
On status 429 it sleeps `15 * 2 ** attempt` and retries; `raise_for_status`
raises `requests.HTTPError` for any 4xx/5xx status, which the
`except requests.RequestException` arm catches like a transport failure
and retries after `5 * (attempt + 1)`; a 2xx/3xx response is parsed, and a
non-empty `objects` list stores its first entry in the cache and returns
it, an empty one returns `None` without caching. -/
def searchLoop (resp : Nat → HttpResp) (key : String) (attempt remaining : Nat)
    (cache : List (String × ClistObj)) (events : List LogEvent) (calls : Nat) :
    FetchResult :=
  match remaining with
  | 0 => ⟨none, cache, events, calls⟩
  | r + 1 =>
    match resp attempt with
    | .netError =>
      if r = 0 then ⟨none, cache, events ++ [.requestFailGiveUp], calls + 1⟩
      else
        searchLoop resp key (attempt + 1) r cache
          (events ++ [.requestFailWait (5 * (attempt + 1))]) (calls + 1)
    | .resp code objs =>
      if code = 429 then
        if r = 0 then ⟨none, cache, events ++ [.rateLimitGiveUp], calls + 1⟩
        else
          searchLoop resp key (attempt + 1) r cache
            (events ++ [.rateLimitWait (15 * 2 ^ attempt)]) (calls + 1)
      else if 400 ≤ code ∧ code < 600 then
        if r = 0 then ⟨none, cache, events ++ [.requestFailGiveUp], calls + 1⟩
        else
          searchLoop resp key (attempt + 1) r cache
            (events ++ [.requestFailWait (5 * (attempt + 1))]) (calls + 1)
      else
        match objs with
        | [] => ⟨none, cache, events, calls + 1⟩
        | o :: _ => ⟨some o, (key, o) :: cache, events, calls + 1⟩

/-- The platform → Clist resource mapping at the top of `search_problem`;
an unknown platform returns `None` before any cache or network access. -/
def resourceOf : String → Option String
  | "codeforces" => some "codeforces.com"
  | "atcoder" => some "atcoder.jp"
  | "leetcode" => some "leetcode.com"
  | _ => none

/-- Rendering of the `problem_title` argument inside the f-string cache
key; `fetch_rating` passes `problem.title`, which may be `None`. -/
def titleStr : Option String → String
  | some s => s
  | none => "None"

/-- `ClistFetcher.search_problem` (`fetcher.py` lines 34-108): platform
mapping, then cache lookup (a hit returns the stored info with no network
call), then the retry loop. -/
def search_problem (cache : List (String × ClistObj)) (platform : String)
    (problem_title : Option String) (max_retries : Nat) (resp : Nat → HttpResp) :
    FetchResult :=
  match resourceOf platform with
  | none => ⟨none, cache, [], 0⟩
  | some _ =>
    let key := platform ++ "-" ++ titleStr problem_title
    match alookup cache key with
    | some v => ⟨some v, cache, [], 0⟩
    | none => searchLoop resp key 0 max_retries cache [] 0

/-- `ClistFetcher.fetch_rating` (`fetcher.py` lines 110-131):
`search_problem(problem.platform, problem.title)` with the default
`max_retries = 3`; on a found info, `rating = info.get('rating')` and
`if rating: return int(rating)` — falsy for both `None` and `0` — else
`None`. -/
def fetch_rating (cache : List (String × ClistObj)) (p : Problem)
    (resp : Nat → HttpResp) : Option Int × FetchResult :=
  let fr := search_problem cache p.platform p.title 3 resp
  match fr.found with
  | some info =>
    match info.rating with
    | some r => (if r = 0 then none else some r, fr)
    | none => (none, fr)
  | none => (none, fr)

/-- The cache key `f"{platform}-{problem_title}"` for a problem, as
`fetch_rating`'s call to `search_problem` computes it. -/
def cacheKeyOf (p : Problem) : String :=
  p.platform ++ "-" ++ titleStr p.title

/-- The `for i, problem in enumerate(problems, 1)` loop of
`fetch_ratings_batch` (`fetcher.py` lines 151-164): strictly sequential;
`problem.clist_rating` is assigned only when `fetch_rating` returned a
value; `time.sleep(delay)` runs whenever `i < total`, i.e. after every
problem except the last, whether or not the lookup was a cache hit.
`resp i` is the response schedule available to the i-th problem's lookup.
Returns the updated problems, the cache, the sleeps in order, and the
number of network calls. -/
def batchLoop (resp : Nat → Nat → HttpResp) (delay : Nat) :
    List (String × ClistObj) → Nat → List Problem →
    List Problem × List (String × ClistObj) × List Nat × Nat
  | cache, _, [] => ([], cache, [], 0)
  | cache, i, p :: rest =>
    let pr := fetch_rating cache p (resp i)
    let p2 := match pr.1 with
      | some v => { p with clist_rating := some v }
      | none => p
    let ds : List Nat := match rest with
      | [] => []
      | _ :: _ => [delay]
    let out := batchLoop resp delay pr.2.cache (i + 1) rest
    (p2 :: out.1, out.2.1, sleepsOf pr.2.events ++ ds ++ out.2.2.1, pr.2.calls + out.2.2.2)

/-- `ClistFetcher.fetch_ratings_batch` (`fetcher.py` lines 133-168). -/
def fetch_ratings_batch (cache : List (String × ClistObj)) (problems : List Problem)
    (delay : Nat) (resp : Nat → Nat → HttpResp) :
    List Problem × List (String × ClistObj) × List Nat × Nat :=
  batchLoop resp delay cache 0 problems

/-! ## Grouping submissions with a Python `dict` -/

/-- One step of building `problem_submissions`: `dict` assignment
`d.setdefault(k, []).append(a)` on an insertion-ordered association
list, as the crawlers' grouping loops perform it. -/
def upsert {κ α : Type} [DecidableEq κ] :
    List (κ × List α) → κ → α → List (κ × List α)
  | [], k, a => [(k, [a])]
  | (k0, g) :: m, k, a =>
    if k0 = k then (k0, g ++ [a]) :: m else (k0, g) :: upsert m k a

/-- `for sub in submissions: problem_submissions[key(sub)].append(sub)` —
grouping a list by a key while keeping first-occurrence key order and
per-group submission order, exactly what the crawler loops build. -/
def groupByKey {κ α : Type} [DecidableEq κ] (key : α → κ) (l : List α) :
    List (κ × List α) :=
  l.foldl (fun m a => upsert m (key a) a) []

theorem alookup_upsert {κ α : Type} [DecidableEq κ]
    (m : List (κ × List α)) (k : κ) (a : α) (k' : κ) :
    alookup (upsert m k a) k' =
      if k' = k then some ((alookup m k).getD [] ++ [a]) else alookup m k' := by
  induction m with
  | nil =>
    by_cases h : k' = k <;> simp [upsert, alookup, h]
  | cons kv m ih =>
    obtain ⟨k0, g⟩ := kv
    by_cases h0 : k0 = k
    · subst h0
      by_cases h : k' = k0 <;> simp [upsert, alookup, h]
    · have h0' : ¬ k = k0 := fun he => h0 he.symm
      by_cases h : k' = k
      · subst h
        simp [upsert, h0, alookup, h0', ih]
      · by_cases h2 : k' = k0 <;> simp [upsert, h0, alookup, h2, ih, h]

/-- How a grouping fold extends an existing lookup result. -/
def combineGroups {α : Type} (o : Option (List α)) (f : List α) : Option (List α) :=
  match o with
  | some g => some (g ++ f)
  | none => match f with
    | [] => none
    | _ :: _ => some f

theorem alookup_groupFold {κ α : Type} [DecidableEq κ] (key : α → κ)
    (l : List α) (m : List (κ × List α)) (k : κ) :
    alookup (l.foldl (fun m a => upsert m (key a) a) m) k =
      combineGroups (alookup m k) (l.filter (fun a => decide (key a = k))) := by
  induction l generalizing m with
  | nil =>
    cases h : alookup m k <;> simp [combineGroups, h]
  | cons a l ih =>
    simp only [List.foldl_cons, ih, alookup_upsert]
    by_cases hk : key a = k
    · have hk' : k = key a := hk.symm
      simp only [List.filter_cons, hk, decide_True, if_pos hk', combineGroups]
      cases h : alookup m k <;> simp [combineGroups, h, hk']
    · have hk' : ¬ k = key a := fun he => hk he.symm
      simp [List.filter_cons, hk, hk', combineGroups]

theorem alookup_groupByKey {κ α : Type} [DecidableEq κ] (key : α → κ)
    (l : List α) (k : κ) :
    alookup (groupByKey key l) k =
      match l.filter (fun a => decide (key a = k)) with
      | [] => none
      | f => some f := by
  have h := alookup_groupFold key l [] k
  simp only [groupByKey, h, alookup, combineGroups]
  cases l.filter (fun a => decide (key a = k)) <;> rfl

/-- Keys of the groups: the dict has no duplicate keys. -/
theorem upsert_keys {κ α : Type} [DecidableEq κ]
    (m : List (κ × List α)) (k : κ) (a : α) :
    (upsert m k a).map Prod.fst =
      if k ∈ m.map Prod.fst then m.map Prod.fst else m.map Prod.fst ++ [k] := by
  induction m with
  | nil => simp [upsert]
  | cons kv m ih =>
    obtain ⟨k0, g⟩ := kv
    by_cases h0 : k0 = k
    · subst h0; simp [upsert]
    · have h0' : ¬ k = k0 := fun he => h0 he.symm
      by_cases hm : k ∈ m.map Prod.fst <;> simp [upsert, h0, h0', ih, hm]

theorem groupFold_keys_nodup {κ α : Type} [DecidableEq κ] (key : α → κ)
    (l : List α) (m : List (κ × List α)) (hm : (m.map Prod.fst).Nodup) :
    ((l.foldl (fun m a => upsert m (key a) a) m).map Prod.fst).Nodup := by
  induction l generalizing m with
  | nil => exact hm
  | cons a l ih =>
    refine ih _ ?_
    rw [upsert_keys]
    by_cases hk : key a ∈ m.map Prod.fst
    · simpa [hk] using hm
    · simp only [hk, if_false]
      exact List.Nodup.append hm (List.nodup_singleton _)
        (by simpa using fun h => hk h)

theorem groupByKey_keys_nodup {κ α : Type} [DecidableEq κ] (key : α → κ) (l : List α) :
    ((groupByKey key l).map Prod.fst).Nodup :=
  groupFold_keys_nodup key l [] (by simp)

theorem mem_of_alookup {κ β : Type} [DecidableEq κ]
    {m : List (κ × β)} {k : κ} {v : β} (h : alookup m k = some v) : (k, v) ∈ m := by
  induction m with
  | nil => simp [alookup] at h
  | cons kv m ih =>
    obtain ⟨k0, v0⟩ := kv
    by_cases h0 : k = k0
    · subst h0
      simp [alookup] at h
      simp [h]
    · simp [alookup, h0] at h
      exact List.mem_cons_of_mem _ (ih h)

theorem alookup_of_mem_nodup {κ β : Type} [DecidableEq κ]
    {m : List (κ × β)} {k : κ} {v : β} (hnd : (m.map Prod.fst).Nodup)
    (h : (k, v) ∈ m) : alookup m k = some v := by
  induction m with
  | nil => simp at h
  | cons kv m ih =>
    obtain ⟨k0, v0⟩ := kv
    simp only [List.map_cons, List.nodup_cons] at hnd
    rcases List.mem_cons.mp h with he | hm
    · rw [show k = k0 from congrArg Prod.fst he, show v = v0 from congrArg Prod.snd he]
      simp [alookup]
    · have hk : ¬ k = k0 := by
        intro he2; subst he2
        exact hnd.1 (List.mem_map.mpr ⟨(k, v), hm, rfl⟩)
      simp [alookup, hk]
      exact ih hnd.2 hm

/-- Membership of a (key, group) pair in the grouping, characterised by
the filtered submission list. -/
theorem mem_groupByKey {κ α : Type} [DecidableEq κ] (key : α → κ)
    (l : List α) (k : κ) (g : List α) :
    (k, g) ∈ groupByKey key l ↔
      (g = l.filter (fun a => decide (key a = k)) ∧ g ≠ []) := by
  constructor
  · intro h
    have := alookup_of_mem_nodup (groupByKey_keys_nodup key l) h
    rw [alookup_groupByKey] at this
    revert this
    cases hf : l.filter (fun a => decide (key a = k)) with
    | nil => intro h2; cases h2
    | cons x xs =>
      intro h2
      injection h2 with h2
      refine ⟨h2.symm ▸ rfl, ?_⟩
      rw [← h2]
      simp
  · rintro ⟨rfl, hne⟩
    apply mem_of_alookup (m := groupByKey key l)
    rw [alookup_groupByKey]
    revert hne
    cases l.filter (fun a => decide (key a = k)) with
    | nil => intro h; cases h rfl
    | cons x xs => intro _; rfl

/-! ## `crawlers/codeforces.py` : `CodeforcesCrawler.get_unsolved_problems` -/

/-- The fields of one Codeforces submission record that
`get_unsolved_problems` reads: `sub['problem']['contestId']` (an integer
in the CF API), `sub['problem']['index']`, `sub['problem']['name']` and
`sub['verdict']`. -/
structure CFSub where
  contestId : Int
  index : String
  name : String
  verdict : String
deriving Repr, DecidableEq

/-- The gym filter at the top of the grouping loop: when `include_gym`
is false, submissions with `contestId >= 100000` are skipped before
grouping (`codeforces.py` lines 66-70). -/
def cfFilteredSubs (include_gym : Bool) (subs : List CFSub) : List CFSub :=
  if include_gym then subs else subs.filter (fun s => decide (s.contestId < 100000))

/-- The body of the second loop of `get_unsolved_problems`
(`codeforces.py` lines 84-99): a group is emitted iff no submission in it
has verdict `"OK"`; the title comes from the group's first submission and
the `Problem` is built with `str(contest_id)`. -/
def cfEmit (kg : (Int × String) × List CFSub) : Option Problem :=
  if kg.2.any (fun s => decide (s.verdict = "OK")) then none
  else
    match kg.2 with
    | [] => none
    | s0 :: _ => some (mkProblem "codeforces" (toString kg.1.1) kg.1.2 (some s0.name) "")

/-- The grouping key `(problem.contestId, problem.index)` of the
Codeforces crawler. -/
def cfKey (s : CFSub) : Int × String := (s.contestId, s.index)

/-- `CodeforcesCrawler.get_unsolved_problems` (`codeforces.py` lines
53-101), parameterised by the submissions `fetch_submissions` returned. -/
def cf_get_unsolved_problems (include_gym : Bool) (subs : List CFSub) : List Problem :=
  (groupByKey cfKey (cfFilteredSubs include_gym subs)).filterMap cfEmit

/-! ## `crawlers/atcoder.py` : `AtCoderCrawler.get_unsolved_problems` -/

/-- The fields of one AtCoder submission that the crawler reads:
`sub['problem_id']` and `sub['result']`. -/
structure ATSub where
  problem_id : String
  result : String
deriving Repr, DecidableEq

/-- The fields of one entry of `problems.json` that the crawler reads:
`title` and `contest_id` (missing keys default to `''`). -/
structure ATInfo where
  title : String
  contest_id : String
deriving Repr, DecidableEq

/-- `problems_map.get(problem_id, {})` followed by
`.get('title', '')` / `.get('contest_id', '')`. -/
def atInfoOf (pmap : List (String × ATInfo)) (pid : String) : ATInfo :=
  (alookup pmap pid).getD ⟨"", ""⟩

/-- `'practice' in contest_id.lower()` (`atcoder.py` line 113). -/
def containsPractice (contest_id : String) : Bool :=
  hasInfixChars "practice".toList (lowerString contest_id).toList
where
  /-- `needle in hay` on character lists. -/
  hasInfixChars (needle : List Char) : List Char → Bool
    | [] => needle.isEmpty
    | c :: cs => needle.isPrefixOf (c :: cs) || hasInfixChars needle cs

/-- The body of the emission loop of the AtCoder
`get_unsolved_problems` (`atcoder.py` lines 101-124): skip groups with an
`"AC"` result; look the problem up in `problems_map`; under
`contest_only`, skip problems whose `contest_id` contains `'practice'`;
build the `Problem` with `problem_index = problem_id` and overwrite its
url. -/
def atEmit (contest_only : Bool) (pmap : List (String × ATInfo))
    (kg : String × List ATSub) : Option Problem :=
  if kg.2.any (fun s => decide (s.result = "AC")) then none
  else
    let info := atInfoOf pmap kg.1
    if contest_only && containsPractice info.contest_id then none
    else
      let p := mkProblem "atcoder" info.contest_id kg.1 (some info.title) ""
      some { p with
        url := "https://atcoder.jp/contests/" ++ info.contest_id ++ "/tasks/" ++ kg.1 }

/-- `AtCoderCrawler.get_unsolved_problems` (`atcoder.py` lines 80-126),
parameterised by the submissions and the `problems.json` map the two
fetches returned. -/
def at_get_unsolved_problems (contest_only : Bool) (subs : List ATSub)
    (pmap : List (String × ATInfo)) : List Problem :=
  (groupByKey ATSub.problem_id subs).filterMap (atEmit contest_only pmap)

/-! ## `crawlers/leetcode.py` : `LeetCodeCrawler.get_contest_unattempted_problems` -/

/-- One contest question as `fetch_contest_problems` returns it:
`title` and `titleSlug`. -/
structure LCQ where
  title : String
  titleSlug : String
deriving Repr, DecidableEq

/-- The inner loop of `get_contest_unattempted_problems`
(`leetcode.py` lines 541-557): for each question of one contest, skip
empty slugs, skip attempted or already-seen slugs, else build a
`Problem(platform='leetcode', contest_id=contest_title_slug,
problem_index=title_slug, ...)` and record the slug as seen. -/
def lcProbLoop (attempted : List String) (cslug : String) :
    List LCQ → List String → List Problem × List String
  | [], seen => ([], seen)
  | q :: qs, seen =>
    if q.titleSlug = "" then lcProbLoop attempted cslug qs seen
    else if q.titleSlug ∈ attempted ∨ q.titleSlug ∈ seen then
      lcProbLoop attempted cslug qs seen
    else
      let p := mkProblem "leetcode" cslug q.titleSlug (some q.title)
        ("https://leetcode.cn/problems/" ++ q.titleSlug ++ "/")
      let out := lcProbLoop attempted cslug qs (seen ++ [q.titleSlug])
      (p :: out.1, out.2)

/-- The outer contest loop of `get_contest_unattempted_problems`:
skip contests with an empty slug, fetch that contest's questions and run
the inner loop, threading the `seen_problems` set. -/
def lcContestLoop (attempted : List String) (contestProblems : String → List LCQ) :
    List String → List String → List Problem
  | [], _ => []
  | cslug :: rest, seen =>
    if cslug = "" then lcContestLoop attempted contestProblems rest seen
    else
      let out := lcProbLoop attempted cslug (contestProblems cslug) seen
      out.1 ++ lcContestLoop attempted contestProblems rest out.2

/-- `LeetCodeCrawler.get_contest_unattempted_problems`
(`leetcode.py` lines 499-560), parameterised by the attempted title slugs
(from the user's submissions), the slugs of the contests the user entered
(from `fetch_user_contests`) and each contest's question list (from
`fetch_contest_problems`).  With no contests the method returns `[]`. -/
def lc_get_contest_unattempted_problems (attempted : List String)
    (contests : List String) (contestProblems : String → List LCQ) : List Problem :=
  match contests with
  | [] => []
  | _ :: _ => lcContestLoop attempted contestProblems contests []

/-! ## `main.py` : `crawl_all_problems` and the pipeline order -/

/-- The `platforms.codeforces` section of the configuration that
`crawl_all_problems` reads. -/
structure CFConfig where
  enabled : Bool
  handle : String
  include_gym : Bool
deriving Repr, DecidableEq

/-- The `platforms.atcoder` configuration section. -/
structure ATConfig where
  enabled : Bool
  handle : String
  contest_only : Bool
deriving Repr, DecidableEq

/-- The `platforms.leetcode` configuration section; only emptiness of
`cookies` is tested by `crawl_all_problems`. -/
structure LCConfig where
  enabled : Bool
  cookies : List (String × String)
deriving Repr, DecidableEq

/-- The `platforms` configuration. -/
structure Config where
  codeforces : CFConfig
  atcoder : ATConfig
  leetcode : LCConfig
deriving Repr, DecidableEq

/-- `crawl_all_problems` (`main.py` lines 35-97), parameterised by what
each platform's crawl call produces: `.ok problems` when it returns,
`.error e` when it raises (each branch is wrapped in
`try/except Exception`, which prints the error and moves on).  The
platforms run in the fixed order Codeforces, AtCoder, LeetCode, each
appending to `all_problems`; a disabled platform, an empty
`handle.strip()` (or empty `cookies`) or a raised error contributes
nothing.  (The LeetCode branch calls `crawler.get_all_attempted_problems()`,
a method `LeetCodeCrawler` does not define, so on the real class that
branch always takes the error path with an `AttributeError`.) -/
def crawl_all_problems (cfg : Config)
    (cfRun atRun lcRun : Except String (List Problem)) : List Problem :=
  let all0 : List Problem := []
  let all1 :=
    if cfg.codeforces.enabled then
      if trimString cfg.codeforces.handle = "" then all0
      else
        match cfRun with
        | .ok ps => all0 ++ ps
        | .error _ => all0
    else all0
  let all2 :=
    if cfg.atcoder.enabled then
      if trimString cfg.atcoder.handle = "" then all1
      else
        match atRun with
        | .ok ps => all1 ++ ps
        | .error _ => all1
    else all1
  let all3 :=
    if cfg.leetcode.enabled then
      match cfg.leetcode.cookies with
      | [] => all2
      | _ :: _ =>
        match lcRun with
        | .ok ps => all2 ++ ps
        | .error _ => all2
    else all2
  all3

/-- The problem sequence `main` (`main.py` lines 158-179) passes on to
`fetch_ratings` and `export_results`: the crawl result reversed by
`problems = problems[::-1]` (line 174). -/
def mainProblemSeq (cfg : Config)
    (cfRun atRun lcRun : Except String (List Problem)) : List Problem :=
  (crawl_all_problems cfg cfRun atRun lcRun).reverse

/-- What one platform contributes to the merged list, written directly
(the spec's reading of step (1)-(2)): its crawl result if the platform is
enabled, configured and its crawl succeeded, else nothing.  Used to
compare `crawl_all_problems` against the spec's merge description. -/
def platformContrib (enabled : Bool) (configured : Bool)
    (run : Except String (List Problem)) : List Problem :=
  if enabled && configured then
    match run with
    | .ok ps => ps
    | .error _ => []
  else []

/-! ## Claim C2 -/

/-- C2: `problem_id` is claimed to be a deterministic function of
(platform, contestId, problemIndex) that is injective on distinct triples.
It is deterministic (a pure function), but for `platform = "leetcode"`
`__post_init__` sets `problem_id = f"LC-{contest_id}"`, ignoring
`problem_index` entirely, even though `get_contest_unattempted_problems`
passes distinct `titleSlug`s as `problem_index` precisely "to ensure
uniqueness" (its own comment): two distinct problems of one contest get
the same id.  This theorem evaluates the code at the failing input. -/
theorem C2_leetcode_problem_id_collision :
    (mkProblem "leetcode" "weekly-contest-300" "problem-a" (some "A")
        "https://leetcode.cn/problems/problem-a/").problem_id =
      (mkProblem "leetcode" "weekly-contest-300" "problem-b" (some "B")
        "https://leetcode.cn/problems/problem-b/").problem_id ∧
    ("problem-a" : String) ≠ "problem-b" ∧
    lc_get_contest_unattempted_problems [] ["weekly-contest-300"]
        (fun _ => [⟨"A", "problem-a"⟩, ⟨"B", "problem-b"⟩]) =
      [mkProblem "leetcode" "weekly-contest-300" "problem-a" (some "A")
        "https://leetcode.cn/problems/problem-a/",
       mkProblem "leetcode" "weekly-contest-300" "problem-b" (some "B")
        "https://leetcode.cn/problems/problem-b/"] := by
  refine ⟨rfl, by decide, by decide⟩

/-! ## Claim C5 -/

/-- A problem with an unset rating (the `None` case), on JudgeB = atcoder. -/
def exJudgeB : Problem := mkProblem "atcoder" "abc1" "abc1_b" (some "b") ""

/-- A problem whose enriched rating is 1200, on JudgeA = codeforces. -/
def exJudgeA : Problem :=
  { mkProblem "codeforces" "1" "A" (some "a") "" with clist_rating := some 1200 }

/-- A problem whose enriched rating is 900, on JudgeC = leetcode. -/
def exJudgeC : Problem :=
  { mkProblem "leetcode" "two-sum" "" (some "c") "" with clist_rating := some 900 }

/-- A problem whose enriched rating is 100000, above the `99999`
sentinel `sort_problems` substitutes for an unset rating. -/
def exHuge : Problem :=
  { mkProblem "codeforces" "2" "B" (some "h") "" with clist_rating := some 100000 }

/-- C5 counterexample: the claim says an unset rating sorts greater than
any numeric rating (last).  The code substitutes the sentinel `99999`
for `None`, so a numeric rating of `100000` sorts after an unset one:
the sorted output keeps the unset-rating problem first, numeric 100000
last, contradicting the claim. -/
theorem C5_unset_not_greatest :
    sort_problems PLATFORM_PRIORITY [exJudgeB, exHuge] = [exJudgeB, exHuge] ∧
    exJudgeB.clist_rating = none ∧ exHuge.clist_rating = some 100000 := by
  refine ⟨by decide, rfl, rfl⟩

/-- C5 as amended: `sort_problems` is a stable deterministic sort whose
primary key is the effective rating — the rating with `None` replaced by
the sentinel `99999` (hence unset sorts after every rating below `99999`
but not after larger ones) — and whose secondary key is the per-platform
priority (default JudgeA/codeforces = 1, JudgeB/atcoder = 2,
JudgeC/leetcode = 3), ascending; ties on both keys keep input order.
Stated as: the output is a permutation of the input, pairwise ordered by
the lexicographic key, equal-key runs keep input order, and the spec's
three-element example sorts as predicted. -/
theorem C5_sort_contract (prio : List (String × Int)) (l : List Problem) :
    (sort_problems prio l).Perm l ∧
    (sort_problems prio l).Pairwise (fun a b => keyLe (sortKey prio a) (sortKey prio b)) ∧
    (∀ k, keyFilter prio k (sort_problems prio l) = keyFilter prio k l) ∧
    sort_problems PLATFORM_PRIORITY [exJudgeB, exJudgeA, exJudgeC] =
      [exJudgeC, exJudgeA, exJudgeB] :=
  ⟨sort_problems_perm prio l, sort_problems_pairwise prio l,
   fun k => sort_problems_stable prio k l, by decide⟩

/-! ## Claim C9 -/

/-- C9: in `crawl_all_problems` every platform's crawl is wrapped in its
own `try/except Exception` that prints the error and falls through, so a
platform whose crawl raises contributes nothing but leaves the other
platforms' contributions untouched: the result with an erroring platform
equals the result with that platform returning no problems, whichever
platform fails. -/
theorem C9_crawl_error_isolation (cfg : Config) (e1 e2 e3 : String)
    (cfRun atRun lcRun : Except String (List Problem)) :
    crawl_all_problems cfg (.error e1) atRun lcRun =
        crawl_all_problems cfg (.ok []) atRun lcRun ∧
    crawl_all_problems cfg cfRun (.error e2) lcRun =
        crawl_all_problems cfg cfRun (.ok []) lcRun ∧
    crawl_all_problems cfg cfRun atRun (.error e3) =
        crawl_all_problems cfg cfRun atRun (.ok []) := by
  unfold crawl_all_problems
  refine ⟨?_, ?_, ?_⟩ <;> (repeat' split) <;> simp_all

/-! ## Claim C1 -/

/-- First problem crawled in the C1 counterexample run. -/
def qFirst : Problem := mkProblem "codeforces" "1" "A" (some "First") ""

/-- Second problem crawled in the C1 counterexample run. -/
def qSecond : Problem := mkProblem "codeforces" "1" "B" (some "Second") ""

/-- Configuration with only Codeforces enabled. -/
def cfgOnlyCF : Config :=
  ⟨⟨true, "user", true⟩, ⟨false, "", true⟩, ⟨false, []⟩⟩

/-- Configuration with only LeetCode enabled (cookies present). -/
def cfgOnlyLC : Config :=
  ⟨⟨false, "", true⟩, ⟨false, "", true⟩, ⟨true, [("csrftoken", "x")]⟩⟩

/-- LeetCode contest problem `p-a` of contest `weekly-1`, as
`get_contest_unattempted_problems` builds it. -/
def lpA : Problem :=
  mkProblem "leetcode" "weekly-1" "p-a" (some "PA") "https://leetcode.cn/problems/p-a/"

/-- LeetCode contest problem `p-b` of contest `weekly-1`. -/
def lpB : Problem :=
  mkProblem "leetcode" "weekly-1" "p-b" (some "PB") "https://leetcode.cn/problems/p-b/"

/-- C1 counterexample.  The pipeline neither preserves crawl order nor
deduplicates: (i) with two distinct problems crawled in order
`[qFirst, qSecond]`, the sequence `main` hands to enrichment/export is
the reversal `[qSecond, qFirst]` (`problems[::-1]`, `main.py` line 174),
so the merged sequence does not preserve crawl order; (ii) the LeetCode
contest crawler really produces two distinct problems `lpA ≠ lpB` with
equal `problem_id`, and when a crawl returns them both survive to the
enrichment/export sequence (count 1 each, two entries with the same id)
— no dedup step exists. -/
theorem C1_counterexample :
    mainProblemSeq cfgOnlyCF (.ok [qFirst, qSecond]) (.ok []) (.error "err") =
      [qSecond, qFirst] ∧
    qFirst ≠ qSecond ∧
    lc_get_contest_unattempted_problems [] ["weekly-1"]
        (fun _ => [⟨"PA", "p-a"⟩, ⟨"PB", "p-b"⟩]) = [lpA, lpB] ∧
    lpA.problem_id = lpB.problem_id ∧ lpA ≠ lpB ∧
    mainProblemSeq cfgOnlyLC (.ok []) (.ok []) (.ok [lpA, lpB]) = [lpB, lpA] := by
  refine ⟨by decide, by decide, by decide, rfl, by decide, by decide⟩

/-- C1 as amended: `crawl_all_problems` concatenates the enabled,
configured, non-erroring platforms' crawl results in the fixed order
Codeforces, AtCoder, LeetCode, performs no deduplication, and `main`
reverses this merged sequence before enrichment and export; every crawled
entry (duplicate `problem_id` or not) survives with its multiplicity. -/
theorem C1_pipeline_reversed_concat_no_dedup (cfg : Config)
    (cfRun atRun lcRun : Except String (List Problem)) :
    mainProblemSeq cfg cfRun atRun lcRun =
      (platformContrib cfg.codeforces.enabled
          (decide (trimString cfg.codeforces.handle ≠ "")) cfRun ++
        platformContrib cfg.atcoder.enabled
          (decide (trimString cfg.atcoder.handle ≠ "")) atRun ++
        platformContrib cfg.leetcode.enabled
          (decide (cfg.leetcode.cookies ≠ [])) lcRun).reverse ∧
    ∀ q : Problem, (mainProblemSeq cfg cfRun atRun lcRun).count q =
      (platformContrib cfg.codeforces.enabled
          (decide (trimString cfg.codeforces.handle ≠ "")) cfRun).count q +
        (platformContrib cfg.atcoder.enabled
          (decide (trimString cfg.atcoder.handle ≠ "")) atRun).count q +
        (platformContrib cfg.leetcode.enabled
          (decide (cfg.leetcode.cookies ≠ [])) lcRun).count q := by
  have hmain : mainProblemSeq cfg cfRun atRun lcRun =
      (platformContrib cfg.codeforces.enabled
          (decide (trimString cfg.codeforces.handle ≠ "")) cfRun ++
        platformContrib cfg.atcoder.enabled
          (decide (trimString cfg.atcoder.handle ≠ "")) atRun ++
        platformContrib cfg.leetcode.enabled
          (decide (cfg.leetcode.cookies ≠ [])) lcRun).reverse := by
    obtain ⟨⟨cfe, cfh, cfgym⟩, ⟨ate, ath, ato⟩, ⟨lce, lcc⟩⟩ := cfg
    simp only [mainProblemSeq, crawl_all_problems, platformContrib]
    cases cfe <;> cases ate <;> cases lce <;>
      by_cases h1 : trimString cfh = "" <;> by_cases h2 : trimString ath = "" <;>
      cases lcc <;> cases cfRun <;> cases atRun <;> cases lcRun <;>
      simp [h1, h2]
  refine ⟨hmain, fun q => ?_⟩
  rw [hmain, List.count_reverse, List.count_append, List.count_append]

/-! ## Claim C6 -/

/-- The fields of `mkProblem` that `__post_init__` never alters. -/
theorem mkProblem_fields (pf c i : String) (t : Option String) (u : String) :
    (mkProblem pf c i t u).platform = pf ∧ (mkProblem pf c i t u).contest_id = c ∧
      (mkProblem pf c i t u).problem_index = i := by
  unfold mkProblem
  split_ifs <;> exact ⟨rfl, rfl, rfl⟩

/-- The Codeforces submission group for one `(contestId, index)` key,
after the gym filter: what the grouping dict stores under that key. -/
def cfGroup (include_gym : Bool) (subs : List CFSub) (k : Int × String) : List CFSub :=
  (cfFilteredSubs include_gym subs).filter (fun s => decide (cfKey s = k))

/-- The key has a group and no submission in it was accepted (verdict
`"OK"`): the condition under which the crawler reports the problem
unsolved. -/
def cfGroupUnsolved (include_gym : Bool) (subs : List CFSub) (k : Int × String) : Prop :=
  cfGroup include_gym subs k ≠ [] ∧ ∀ s ∈ cfGroup include_gym subs k, s.verdict ≠ "OK"

instance (ig : Bool) (subs : List CFSub) (k : Int × String) :
    Decidable (cfGroupUnsolved ig subs k) := by
  unfold cfGroupUnsolved; infer_instance

/-- The AtCoder submission group for one `problem_id`. -/
def atGroup (subs : List ATSub) (pid : String) : List ATSub :=
  subs.filter (fun s => decide (ATSub.problem_id s = pid))

/-- The AtCoder unsolved condition, including the `contest_only`
practice filter the emission loop applies. -/
def atGroupUnsolved (contest_only : Bool) (subs : List ATSub)
    (pmap : List (String × ATInfo)) (pid : String) : Prop :=
  atGroup subs pid ≠ [] ∧ (∀ s ∈ atGroup subs pid, s.result ≠ "AC") ∧
    ¬ (contest_only = true ∧ containsPractice (atInfoOf pmap pid).contest_id = true)

instance (co : Bool) (subs : List ATSub) (pmap : List (String × ATInfo)) (pid : String) :
    Decidable (atGroupUnsolved co subs pmap pid) := by
  unfold atGroupUnsolved; infer_instance

theorem cf_mem_of_groupUnsolved {ig : Bool} {subs : List CFSub} {k : Int × String}
    (h : cfGroupUnsolved ig subs k) :
    ∃ p ∈ cf_get_unsolved_problems ig subs,
      p.contest_id = toString k.1 ∧ p.problem_index = k.2 := by
  obtain ⟨hne, hall⟩ := h
  have hg : (k, cfGroup ig subs k) ∈ groupByKey cfKey (cfFilteredSubs ig subs) :=
    (mem_groupByKey cfKey (cfFilteredSubs ig subs) k _).mpr ⟨rfl, hne⟩
  have hany : (cfGroup ig subs k).any (fun s => decide (s.verdict = "OK")) = false := by
    simp only [List.any_eq_false, decide_eq_true_eq]
    exact hall
  obtain ⟨s0, g', hgeq⟩ : ∃ s0 g', cfGroup ig subs k = s0 :: g' := by
    cases hc : cfGroup ig subs k with
    | nil => exact absurd hc hne
    | cons x xs => exact ⟨x, xs, rfl⟩
  refine ⟨mkProblem "codeforces" (toString k.1) k.2 (some s0.name) "", ?_, ?_, ?_⟩
  · refine List.mem_filterMap.mpr ⟨(k, cfGroup ig subs k), hg, ?_⟩
    rw [hgeq] at hany
    simp [cfEmit, hgeq, hany]
  · exact (mkProblem_fields _ _ _ _ _).2.1
  · exact (mkProblem_fields _ _ _ _ _).2.2

theorem cf_groupUnsolved_of_mem {ig : Bool} {subs : List CFSub} {p : Problem}
    (hp : p ∈ cf_get_unsolved_problems ig subs) :
    ∃ k, cfGroupUnsolved ig subs k ∧
      p.contest_id = toString k.1 ∧ p.problem_index = k.2 := by
  obtain ⟨⟨k, g⟩, hg, he⟩ := List.mem_filterMap.mp hp
  obtain ⟨hgeq, hne⟩ := (mem_groupByKey cfKey (cfFilteredSubs ig subs) k g).mp hg
  have hgg : g = cfGroup ig subs k := hgeq
  simp only [cfEmit] at he
  by_cases hany : (g.any fun s => decide (s.verdict = "OK")) = true
  · rw [if_pos hany] at he
    simp at he
  · rw [if_neg hany] at he
    have hall : ∀ s ∈ cfGroup ig subs k, s.verdict ≠ "OK" := by
      intro s hs hok
      apply hany
      refine List.any_eq_true.mpr ⟨s, ?_, by simp [hok]⟩
      rw [hgg]
      exact hs
    obtain ⟨s0, g', hgeq2⟩ : ∃ s0 g', g = s0 :: g' := by
      cases hc : g with
      | nil => exact absurd hc hne
      | cons x xs => exact ⟨x, xs, rfl⟩
    rw [hgeq2] at he
    have he2 : some (mkProblem "codeforces" (toString k.1) k.2 (some s0.name) "") = some p :=
      he
    injection he2 with he2
    refine ⟨k, ⟨?_, hall⟩, ?_, ?_⟩
    · rw [← hgg, hgeq2]
      simp
    · rw [← he2]
      exact (mkProblem_fields _ _ _ _ _).2.1
    · rw [← he2]
      exact (mkProblem_fields _ _ _ _ _).2.2

theorem at_mem_of_groupUnsolved {co : Bool} {subs : List ATSub}
    {pmap : List (String × ATInfo)} {pid : String}
    (h : atGroupUnsolved co subs pmap pid) :
    ∃ p ∈ at_get_unsolved_problems co subs pmap,
      p.platform = "atcoder" ∧ p.problem_index = pid := by
  obtain ⟨hne, hall, hpr⟩ := h
  have hg : (pid, atGroup subs pid) ∈ groupByKey ATSub.problem_id subs :=
    (mem_groupByKey ATSub.problem_id subs pid _).mpr ⟨rfl, hne⟩
  have hany : (atGroup subs pid).any (fun s => decide (s.result = "AC")) = false := by
    simp only [List.any_eq_false, decide_eq_true_eq]
    exact hall
  have hco : (co && containsPractice (atInfoOf pmap pid).contest_id) = false := by
    cases co with
    | false => rfl
    | true =>
      cases hcp : containsPractice (atInfoOf pmap pid).contest_id with
      | false => rfl
      | true => exact absurd ⟨rfl, hcp⟩ hpr
  refine ⟨{ mkProblem "atcoder" (atInfoOf pmap pid).contest_id pid
      (some (atInfoOf pmap pid).title) "" with
      url := "https://atcoder.jp/contests/" ++ (atInfoOf pmap pid).contest_id ++
        "/tasks/" ++ pid }, ?_, ?_, ?_⟩
  · refine List.mem_filterMap.mpr ⟨(pid, atGroup subs pid), hg, ?_⟩
    simp [atEmit, hany, hco]
  · exact (mkProblem_fields _ _ _ _ _).1
  · exact (mkProblem_fields _ _ _ _ _).2.2

theorem at_groupUnsolved_of_mem {co : Bool} {subs : List ATSub}
    {pmap : List (String × ATInfo)} {p : Problem}
    (hp : p ∈ at_get_unsolved_problems co subs pmap) :
    ∃ pid, atGroupUnsolved co subs pmap pid ∧ p.problem_index = pid := by
  obtain ⟨⟨pid, g⟩, hg, he⟩ := List.mem_filterMap.mp hp
  obtain ⟨hgeq, hne⟩ := (mem_groupByKey ATSub.problem_id subs pid g).mp hg
  have hgg : g = atGroup subs pid := hgeq
  simp only [atEmit] at he
  by_cases hany : (g.any fun s => decide (s.result = "AC")) = true
  · rw [if_pos hany] at he
    simp at he
  · rw [if_neg hany] at he
    by_cases hco : (co && containsPractice (atInfoOf pmap pid).contest_id) = true
    · rw [if_pos hco] at he
      simp at he
    · rw [if_neg hco] at he
      injection he with he
      refine ⟨pid, ⟨?_, ?_, ?_⟩, ?_⟩
      · rw [← hgg]
        exact hne
      · intro s hs hok
        apply hany
        refine List.any_eq_true.mpr ⟨s, ?_, by simp [hok]⟩
        rw [hgg]
        exact hs
      · rintro ⟨hc1, hc2⟩
        subst hc1
        rw [hc2] at hco
        simp at hco
      · rw [← he]
        exact (mkProblem_fields _ _ _ _ _).2.2

theorem cfFilteredSubs_perm {ig : Bool} {subs subs' : List CFSub}
    (h : subs.Perm subs') : (cfFilteredSubs ig subs).Perm (cfFilteredSubs ig subs') := by
  cases ig with
  | false => exact h.filter _
  | true => exact h

theorem cfGroupUnsolved_perm (ig : Bool) {subs subs' : List CFSub}
    (h : subs.Perm subs') (k : Int × String) :
    cfGroupUnsolved ig subs k ↔ cfGroupUnsolved ig subs' k := by
  have hperm : (cfGroup ig subs k).Perm (cfGroup ig subs' k) :=
    (cfFilteredSubs_perm h).filter _
  unfold cfGroupUnsolved
  constructor <;> intro ⟨h1, h2⟩
  · refine ⟨?_, fun s hs => h2 s (hperm.mem_iff.mpr hs)⟩
    intro hnil
    exact h1 (List.eq_nil_of_length_eq_zero (by rw [hperm.length_eq, hnil]; rfl))
  · refine ⟨?_, fun s hs => h2 s (hperm.mem_iff.mp hs)⟩
    intro hnil
    exact h1 (List.eq_nil_of_length_eq_zero (by rw [← hperm.length_eq, hnil]; rfl))

theorem atGroup_perm {subs subs' : List ATSub} (h : subs.Perm subs') (pid : String) :
    (atGroup subs pid).Perm (atGroup subs' pid) := h.filter _

theorem atGroupUnsolved_perm (co : Bool) (pmap : List (String × ATInfo))
    {subs subs' : List ATSub} (h : subs.Perm subs') (pid : String) :
    atGroupUnsolved co subs pmap pid ↔ atGroupUnsolved co subs' pmap pid := by
  have hperm := atGroup_perm h pid
  unfold atGroupUnsolved
  constructor <;> intro ⟨h1, h2, h3⟩
  · refine ⟨?_, fun s hs => h2 s (hperm.mem_iff.mpr hs), h3⟩
    intro hnil
    exact h1 (List.eq_nil_of_length_eq_zero (by rw [hperm.length_eq, hnil]; rfl))
  · refine ⟨?_, fun s hs => h2 s (hperm.mem_iff.mp hs), h3⟩
    intro hnil
    exact h1 (List.eq_nil_of_length_eq_zero (by rw [← hperm.length_eq, hnil]; rfl))

theorem cfGroup_append (ig : Bool) (subs₁ subs₂ : List CFSub) (k : Int × String) :
    cfGroup ig (subs₁ ++ subs₂) k = cfGroup ig subs₁ k ++ cfGroup ig subs₂ k := by
  cases ig <;> simp [cfGroup, cfFilteredSubs, List.filter_append]

theorem cfGroup_dup_mem {ig : Bool} {subs : List CFSub} {s : CFSub}
    (hs : s ∈ subs) {k : Int × String} (hk : s ∈ cfGroup ig [s] k) :
    s ∈ cfGroup ig subs k := by
  cases ig with
  | true =>
    simp only [cfGroup, cfFilteredSubs, if_true, List.mem_filter] at hk ⊢
    exact ⟨hs, hk.2⟩
  | false =>
    simp only [cfGroup, cfFilteredSubs, Bool.false_eq_true, if_false,
      List.mem_filter] at hk ⊢
    exact ⟨⟨hs, hk.1.2⟩, hk.2⟩

theorem cfGroup_singleton_eq {ig : Bool} {s x : CFSub} {k : Int × String}
    (hx : x ∈ cfGroup ig [s] k) : x = s := by
  cases ig with
  | true =>
    simp only [cfGroup, cfFilteredSubs, if_true, List.mem_filter,
      List.mem_singleton] at hx
    exact hx.1
  | false =>
    simp only [cfGroup, cfFilteredSubs, Bool.false_eq_true, if_false, List.mem_filter,
      List.mem_singleton] at hx
    exact hx.1.1

theorem cfGroupUnsolved_dup (ig : Bool) {subs : List CFSub} {s : CFSub}
    (hs : s ∈ subs) (k : Int × String) :
    cfGroupUnsolved ig (subs ++ [s]) k ↔ cfGroupUnsolved ig subs k := by
  unfold cfGroupUnsolved
  rw [cfGroup_append]
  constructor
  · intro ⟨h1, h2⟩
    refine ⟨?_, fun x hx => h2 x (List.mem_append_left _ hx)⟩
    intro hnil
    rw [hnil, List.nil_append] at h1 h2
    cases hc : cfGroup ig [s] k with
    | nil => exact h1 hc
    | cons x xs =>
      have hxs : x ∈ cfGroup ig [s] k := by
        rw [hc]
        exact List.mem_cons_self _ _
      have hxe : x = s := cfGroup_singleton_eq hxs
      rw [hxe] at hxs
      have hmem : s ∈ cfGroup ig subs k := cfGroup_dup_mem hs hxs
      rw [hnil] at hmem
      cases hmem
  · intro ⟨h1, h2⟩
    refine ⟨fun hnil => h1 (List.append_eq_nil.mp hnil).1, ?_⟩
    intro x hx
    rcases List.mem_append.mp hx with hx1 | hx2
    · exact h2 x hx1
    · have hxe : x = s := cfGroup_singleton_eq hx2
      subst hxe
      exact h2 x (cfGroup_dup_mem hs hx2)

theorem atGroup_append (subs₁ subs₂ : List ATSub) (pid : String) :
    atGroup (subs₁ ++ subs₂) pid = atGroup subs₁ pid ++ atGroup subs₂ pid := by
  simp [atGroup, List.filter_append]

theorem atGroupUnsolved_dup (co : Bool) (pmap : List (String × ATInfo))
    {subs : List ATSub} {s : ATSub} (hs : s ∈ subs) (pid : String) :
    atGroupUnsolved co (subs ++ [s]) pmap pid ↔ atGroupUnsolved co subs pmap pid := by
  unfold atGroupUnsolved
  rw [atGroup_append]
  have hsg : ∀ x, x ∈ atGroup [s] pid → x = s ∧ x ∈ atGroup subs pid := by
    intro x hx
    simp only [atGroup, List.mem_filter, List.mem_singleton] at hx
    obtain ⟨he, hd⟩ := hx
    subst he
    exact ⟨rfl, List.mem_filter.mpr ⟨hs, hd⟩⟩
  constructor
  · intro ⟨h1, h2, h3⟩
    refine ⟨?_, fun x hx => h2 x (List.mem_append_left _ hx), h3⟩
    intro hnil
    rw [hnil, List.nil_append] at h1
    cases hc : atGroup [s] pid with
    | nil => exact h1 hc
    | cons x xs =>
      have hxs : x ∈ atGroup [s] pid := by rw [hc]; exact List.mem_cons_self _ _
      have := (hsg x hxs).2
      rw [hnil] at this
      cases this
  · intro ⟨h1, h2, h3⟩
    refine ⟨fun hnil => h1 (List.append_eq_nil.mp hnil).1, ?_, h3⟩
    intro x hx
    rcases List.mem_append.mp hx with hx1 | hx2
    · exact h2 x hx1
    · exact h2 x (hsg x hx2).2

/-- An AtCoder practice-pool submission with a non-accepted result. -/
def atPracticeSub : ATSub := ⟨"practice_1", "WA"⟩

/-- C6 counterexample: under the default `contest_only = True`, the
AtCoder crawler's emission loop skips any group whose contest id contains
`'practice'`, so a group with no accepted verdict still yields no entry
in the unsolved set: the claimed iff fails in the only-if direction. -/
theorem C6_counterexample :
    at_get_unsolved_problems true [atPracticeSub] [("practice_1", ⟨"T", "practice"⟩)]
        = [] ∧
    atGroup [atPracticeSub] "practice_1" = [atPracticeSub] ∧
    atPracticeSub.result ≠ "AC" := by
  refine ⟨by decide, by decide, by decide⟩

/-- C6 as amended: after grouping submissions by problem identity, a
problem appears in the crawler's unsolved set iff its group is nonempty,
no submission in the group carries the platform's accepted verdict
(`"OK"` for Codeforces, `"AC"` for AtCoder), and the problem survives the
platform's inclusion filter (Codeforces: the gym filter applied to the
submissions before grouping; AtCoder: not a `'practice'` contest under
`contest_only`); this outcome is invariant under permutation of the
submission list and under appending a duplicate of an existing
submission. -/
theorem C6_unsolved_iff_no_accepted :
    (∀ (ig : Bool) (subs : List CFSub) (k : Int × String),
        cfGroupUnsolved ig subs k →
          ∃ p ∈ cf_get_unsolved_problems ig subs,
            p.contest_id = toString k.1 ∧ p.problem_index = k.2) ∧
    (∀ (ig : Bool) (subs : List CFSub) (p : Problem),
        p ∈ cf_get_unsolved_problems ig subs →
          ∃ k, cfGroupUnsolved ig subs k ∧
            p.contest_id = toString k.1 ∧ p.problem_index = k.2) ∧
    (∀ (co : Bool) (subs : List ATSub) (pmap : List (String × ATInfo)) (pid : String),
        atGroupUnsolved co subs pmap pid →
          ∃ p ∈ at_get_unsolved_problems co subs pmap,
            p.platform = "atcoder" ∧ p.problem_index = pid) ∧
    (∀ (co : Bool) (subs : List ATSub) (pmap : List (String × ATInfo)) (p : Problem),
        p ∈ at_get_unsolved_problems co subs pmap →
          ∃ pid, atGroupUnsolved co subs pmap pid ∧ p.problem_index = pid) ∧
    (∀ (ig : Bool) (subs subs' : List CFSub) (k : Int × String), subs.Perm subs' →
        (cfGroupUnsolved ig subs k ↔ cfGroupUnsolved ig subs' k)) ∧
    (∀ (co : Bool) (pmap : List (String × ATInfo)) (subs subs' : List ATSub)
        (pid : String), subs.Perm subs' →
        (atGroupUnsolved co subs pmap pid ↔ atGroupUnsolved co subs' pmap pid)) ∧
    (∀ (ig : Bool) (subs : List CFSub) (s : CFSub) (k : Int × String), s ∈ subs →
        (cfGroupUnsolved ig (subs ++ [s]) k ↔ cfGroupUnsolved ig subs k)) ∧
    (∀ (co : Bool) (pmap : List (String × ATInfo)) (subs : List ATSub) (s : ATSub)
        (pid : String), s ∈ subs →
        (atGroupUnsolved co (subs ++ [s]) pmap pid ↔ atGroupUnsolved co subs pmap pid)) :=
  ⟨fun _ _ _ h => cf_mem_of_groupUnsolved h,
   fun _ _ _ h => cf_groupUnsolved_of_mem h,
   fun _ _ _ _ h => at_mem_of_groupUnsolved h,
   fun _ _ _ _ h => at_groupUnsolved_of_mem h,
   fun ig _ _ k h => cfGroupUnsolved_perm ig h k,
   fun co pmap _ _ pid h => atGroupUnsolved_perm co pmap h pid,
   fun ig _ _ k h => cfGroupUnsolved_dup ig h k,
   fun co pmap _ _ pid h => atGroupUnsolved_dup co pmap h pid⟩

/-- A Codeforces submission with a non-accepted verdict, for the C6
witness. -/
def cfWitSub : CFSub := ⟨1, "A", "T", "WRONG_ANSWER"⟩

/-- Witness for `C6_unsolved_iff_no_accepted` at a concrete input: the
group of `(1, "A")` has no `"OK"` verdict and the derived problem is in
the Codeforces unsolved set. -/
theorem C6_witness :
    cfGroupUnsolved true [cfWitSub] (1, "A") ∧
    ∃ p ∈ cf_get_unsolved_problems true [cfWitSub],
      p.contest_id = toString (1 : Int) ∧ p.problem_index = "A" :=
  ⟨by decide, C6_unsolved_iff_no_accepted.1 true [cfWitSub] (1, "A") (by decide)⟩

/-! ## Retry-loop lemmas for the fetcher claims -/

/-- A network that always answers HTTP 429. -/
def respAll429 : Nat → HttpResp := fun _ => .resp 429 []

theorem searchLoop_succ_eq (resp : Nat → HttpResp) (key : String) (a r : Nat)
    (cache : List (String × ClistObj)) (events : List LogEvent) (calls : Nat) :
    searchLoop resp key a (r + 1) cache events calls =
      match resp a with
      | .netError =>
        if r = 0 then ⟨none, cache, events ++ [.requestFailGiveUp], calls + 1⟩
        else searchLoop resp key (a + 1) r cache
          (events ++ [.requestFailWait (5 * (a + 1))]) (calls + 1)
      | .resp code objs =>
        if code = 429 then
          if r = 0 then ⟨none, cache, events ++ [.rateLimitGiveUp], calls + 1⟩
          else searchLoop resp key (a + 1) r cache
            (events ++ [.rateLimitWait (15 * 2 ^ a)]) (calls + 1)
        else if 400 ≤ code ∧ code < 600 then
          if r = 0 then ⟨none, cache, events ++ [.requestFailGiveUp], calls + 1⟩
          else searchLoop resp key (a + 1) r cache
            (events ++ [.requestFailWait (5 * (a + 1))]) (calls + 1)
        else
          match objs with
          | [] => ⟨none, cache, events, calls + 1⟩
          | o :: _ => ⟨some o, (key, o) :: cache, events, calls + 1⟩ := rfl

/-- Exhausting the loop against constant 429s: one exponential-backoff
sleep `15 * 2 ^ attempt` per retry, then the rate-limit give-up. -/
theorem searchLoop_all429 (key : String) (cache : List (String × ClistObj)) :
    ∀ (r : Nat), 1 ≤ r → ∀ (a : Nat) (events : List LogEvent) (calls : Nat),
      searchLoop respAll429 key a r cache events calls =
        ⟨none, cache,
          events ++ (List.range (r - 1)).map
            (fun i => LogEvent.rateLimitWait (15 * 2 ^ (a + i))) ++ [.rateLimitGiveUp],
          calls + r⟩ := by
  intro r
  induction r with
  | zero => intro h; omega
  | succ r ih =>
    intro _ a events calls
    rw [searchLoop_succ_eq]
    show (if (429 : Nat) = 429 then _ else _) = _
    rw [if_pos rfl]
    cases r with
    | zero => simp
    | succ r' =>
      rw [if_neg (by omega : ¬ r' + 1 = 0), ih (by omega) (a + 1) _ _]
      have hfe : (fun i => LogEvent.rateLimitWait (15 * 2 ^ (a + 1 + i))) =
          fun i => LogEvent.rateLimitWait (15 * 2 ^ (a + (i + 1))) :=
        funext fun i => congrArg (fun e => LogEvent.rateLimitWait (15 * 2 ^ e)) (by omega)
      simp only [FetchResult.mk.injEq]
      refine ⟨trivial, trivial, ?_, by omega⟩
      rw [Nat.add_sub_cancel, Nat.add_sub_cancel, hfe, List.range_succ_eq_map,
        List.map_cons, List.map_map]
      simp [Function.comp, Nat.succ_eq_add_one, List.append_assoc]

/-- Exhausting the loop against a constant non-429 HTTP error status:
`raise_for_status` raises, the generic `except` arm catches it and
retries with one linear-backoff sleep `5 * (attempt + 1)` per retry, then
the transport give-up. -/
theorem searchLoop_allHttpErr (code : Nat) (h4 : 400 ≤ code) (h6 : code < 600)
    (hne : code ≠ 429) (key : String) (cache : List (String × ClistObj)) :
    ∀ (r : Nat), 1 ≤ r → ∀ (a : Nat) (events : List LogEvent) (calls : Nat),
      searchLoop (fun _ => .resp code []) key a r cache events calls =
        ⟨none, cache,
          events ++ (List.range (r - 1)).map
            (fun i => LogEvent.requestFailWait (5 * (a + i + 1))) ++ [.requestFailGiveUp],
          calls + r⟩ := by
  intro r
  induction r with
  | zero => intro h; omega
  | succ r ih =>
    intro _ a events calls
    rw [searchLoop_succ_eq]
    show (if code = 429 then _ else _) = _
    rw [if_neg hne, if_pos ⟨h4, h6⟩]
    cases r with
    | zero => simp
    | succ r' =>
      rw [if_neg (by omega : ¬ r' + 1 = 0), ih (by omega) (a + 1) _ _]
      have hfe : (fun i => LogEvent.requestFailWait (5 * (a + 1 + i + 1))) =
          fun i => LogEvent.requestFailWait (5 * (a + (i + 1) + 1)) :=
        funext fun i => congrArg LogEvent.requestFailWait (by omega)
      simp only [FetchResult.mk.injEq]
      refine ⟨trivial, trivial, ?_, by omega⟩
      rw [Nat.add_sub_cancel, Nat.add_sub_cancel, hfe, List.range_succ_eq_map,
        List.map_cons, List.map_map]
      simp [Function.comp, Nat.succ_eq_add_one, List.append_assoc]

/-- Whenever the retry loop returns a found info, it has stored it in
the cache under the lookup key. -/
theorem searchLoop_found_cache {resp : Nat → HttpResp} {key : String} {o : ClistObj} :
    ∀ {r a : Nat} {cache : List (String × ClistObj)} {events : List LogEvent}
      {calls : Nat},
      (searchLoop resp key a r cache events calls).found = some o →
      (searchLoop resp key a r cache events calls).cache = (key, o) :: cache := by
  intro r
  induction r with
  | zero =>
    intro a cache events calls h
    simp [searchLoop] at h
  | succ r ih =>
    intro a cache events calls h
    rw [searchLoop_succ_eq] at h ⊢
    generalize hresp : resp a = ra at h ⊢
    cases ra with
    | netError =>
      dsimp only at h ⊢
      by_cases hr0 : r = 0
      · rw [if_pos hr0] at h; simp at h
      · rw [if_neg hr0] at h ⊢; exact ih h
    | resp code objs =>
      dsimp only at h ⊢
      by_cases h429 : code = 429
      · rw [if_pos h429] at h ⊢
        by_cases hr0 : r = 0
        · rw [if_pos hr0] at h; simp at h
        · rw [if_neg hr0] at h ⊢; exact ih h
      · rw [if_neg h429] at h ⊢
        by_cases herr : 400 ≤ code ∧ code < 600
        · rw [if_pos herr] at h ⊢
          by_cases hr0 : r = 0
          · rw [if_pos hr0] at h; simp at h
          · rw [if_neg hr0] at h ⊢; exact ih h
        · rw [if_neg herr] at h ⊢
          cases objs with
          | nil => simp at h
          | cons o' rest =>
            have ho : o' = o := by
              have h2 : some o' = some o := h
              injection h2
            rw [ho]

/-- A cache hit returns the stored info at once: no loop, no events, no
network call. -/
theorem search_problem_cache_hit (cache : List (String × ClistObj))
    (platform : String) (title : Option String) (n : Nat) (resp : Nat → HttpResp)
    (rsrc : String) (v : ClistObj)
    (hro : resourceOf platform = some rsrc)
    (hal : alookup cache (platform ++ "-" ++ titleStr title) = some v) :
    search_problem cache platform title n resp = ⟨some v, cache, [], 0⟩ := by
  unfold search_problem
  rw [hro]
  simp only [hal]

/-- `fetch_rating` passes the `search_problem` result through untouched
as its second component. -/
theorem fetch_rating_snd (cache : List (String × ClistObj)) (p : Problem)
    (resp : Nat → HttpResp) :
    (fetch_rating cache p resp).2 = search_problem cache p.platform p.title 3 resp := by
  unfold fetch_rating
  cases hf : (search_problem cache p.platform p.title 3 resp).found with
  | none => simp [hf]
  | some info =>
    cases hr : info.rating with
    | none => simp [hf, hr]
    | some r => by_cases h0 : r = 0 <;> simp [hf, hr, h0]

/-- `fetch_rating` never returns rating 0: `if rating:` is falsy at 0. -/
theorem fetch_rating_ne_zero (cache : List (String × ClistObj)) (p : Problem)
    (resp : Nat → HttpResp) : (fetch_rating cache p resp).1 ≠ some 0 := by
  unfold fetch_rating
  cases hf : (search_problem cache p.platform p.title 3 resp).found with
  | none => simp [hf]
  | some info =>
    cases hr : info.rating with
    | none => simp [hf, hr]
    | some r =>
      by_cases h0 : r = 0 <;> simp [hf, hr, h0]

/-- A cache miss on a known platform enters the retry loop at attempt 0. -/
theorem search_problem_miss (cache : List (String × ClistObj)) (platform : String)
    (title : Option String) (n : Nat) (resp : Nat → HttpResp) (rsrc : String)
    (hro : resourceOf platform = some rsrc)
    (hal : alookup cache (platform ++ "-" ++ titleStr title) = none) :
    search_problem cache platform title n resp =
      searchLoop resp (platform ++ "-" ++ titleStr title) 0 n cache [] 0 := by
  unfold search_problem
  rw [hro]
  simp only [hal]

/-! ## Claim C3 -/

/-- A network that answers 429 twice, then 200 with one rated match. -/
def resp429Twice : Nat → HttpResp :=
  fun n => if n < 2 then .resp 429 [] else .resp 200 [⟨some 800⟩]

/-- C3: on HTTP 429 `search_problem` retries up to `max_retries` attempts
with exponential backoff `15 * 2 ^ attempt` (15s, 30s, ...), and on
exhaustion gives up with the rate-limit diagnostic and the `None` result.
With two 429s then a 200 and `max_retries = 3` the call succeeds after
exactly the two increasing sleeps 15 and 30; with `max_retries = 1` it
gives up rate-limited after 0 sleeps; against constant 429s it always
ends rate-limited after the full geometric sleep schedule. -/
theorem C3_rate_limit_backoff :
    search_problem [] "codeforces" (some "T") 3 resp429Twice =
      ⟨some ⟨some 800⟩, [("codeforces-T", ⟨some 800⟩)],
        [.rateLimitWait 15, .rateLimitWait 30], 3⟩ ∧
    sleepsOf [LogEvent.rateLimitWait 15, LogEvent.rateLimitWait 30] = [15, 30] ∧
    search_problem [] "codeforces" (some "T") 1 resp429Twice =
      ⟨none, [], [.rateLimitGiveUp], 1⟩ ∧
    ∀ n : Nat, 1 ≤ n →
      search_problem [] "codeforces" (some "T") n respAll429 =
        ⟨none, [],
          (List.range (n - 1)).map (fun i => LogEvent.rateLimitWait (15 * 2 ^ i)) ++
            [.rateLimitGiveUp], n⟩ := by
  refine ⟨by decide, by decide, by decide, ?_⟩
  intro n hn
  rw [search_problem_miss [] "codeforces" (some "T") n respAll429 "codeforces.com"
      rfl rfl,
    searchLoop_all429 _ _ n hn 0 [] 0]
  simp

/-- Witness for the universally quantified part of
`C3_rate_limit_backoff` at `max_retries = 3`. -/
theorem C3_witness :
    (1 : Nat) ≤ 3 ∧
    search_problem [] "codeforces" (some "T") 3 respAll429 =
      ⟨none, [],
        (List.range 2).map (fun i => LogEvent.rateLimitWait (15 * 2 ^ i)) ++
          [.rateLimitGiveUp], 3⟩ :=
  ⟨by decide, C3_rate_limit_backoff.2.2.2 3 (by decide)⟩

/-! ## Claim C4 -/

/-- A network that answers 200 with an empty `objects` list. -/
def respNotFound : Nat → HttpResp := fun _ => .resp 200 []

/-- C4 counterexample: a completed not-found lookup stores nothing
(`search_problem` caches only found matches, `fetcher.py` lines 89-93),
so a second lookup for the same (platform, title) performs another
network call (1, not the claimed 0). -/
theorem C4_not_found_not_cached :
    search_problem [] "codeforces" (some "T") 3 respNotFound = ⟨none, [], [], 1⟩ ∧
    (search_problem (search_problem [] "codeforces" (some "T") 3 respNotFound).cache
        "codeforces" (some "T") 3 respNotFound).calls = 1 := by
  refine ⟨by decide, by decide⟩

/-- C4 as amended: only a found lookup stores its outcome; whenever
`search_problem` returns a found info, that info is in the cache under
the (platform, title) key, and any second lookup for the same key on the
resulting cache performs zero network calls, zero sleeps, and returns the
stored info. -/
theorem C4_found_is_cached (cache : List (String × ClistObj)) (platform : String)
    (title : Option String) (n : Nat) (resp : Nat → HttpResp) (o : ClistObj)
    (h : (search_problem cache platform title n resp).found = some o) :
    alookup (search_problem cache platform title n resp).cache
        (platform ++ "-" ++ titleStr title) = some o ∧
    ∀ (n2 : Nat) (resp2 : Nat → HttpResp),
      search_problem (search_problem cache platform title n resp).cache
          platform title n2 resp2 =
        ⟨some o, (search_problem cache platform title n resp).cache, [], 0⟩ := by
  cases hro : resourceOf platform with
  | none =>
    unfold search_problem at h
    rw [hro] at h
    simp at h
  | some rsrc =>
    cases hal : alookup cache (platform ++ "-" ++ titleStr title) with
    | some v =>
      have he := search_problem_cache_hit cache platform title n resp rsrc v hro hal
      rw [he] at h ⊢
      have hv : v = o := by
        have h2 : some v = some o := h
        injection h2
      subst hv
      exact ⟨hal, fun n2 resp2 =>
        search_problem_cache_hit cache platform title n2 resp2 rsrc v hro hal⟩
    | none =>
      have he := search_problem_miss cache platform title n resp rsrc hro hal
      rw [he] at h ⊢
      have hc := searchLoop_found_cache h
      rw [hc]
      have hal2 : alookup ((platform ++ "-" ++ titleStr title, o) :: cache)
          (platform ++ "-" ++ titleStr title) = some o := by
        simp [alookup]
      exact ⟨hal2, fun n2 resp2 => search_problem_cache_hit _ platform title n2 resp2
        rsrc o hro hal2⟩

/-- A network that answers 200 with one match rated 800. -/
def respFound800 : Nat → HttpResp := fun _ => .resp 200 [⟨some 800⟩]

/-- Witness for `C4_found_is_cached` at a concrete found lookup. -/
theorem C4_witness :
    (search_problem [] "codeforces" (some "T") 3 respFound800).found = some ⟨some 800⟩ ∧
    (alookup (search_problem [] "codeforces" (some "T") 3 respFound800).cache
        ("codeforces" ++ "-" ++ titleStr (some "T")) = some ⟨some 800⟩ ∧
      ∀ (n2 : Nat) (resp2 : Nat → HttpResp),
        search_problem (search_problem [] "codeforces" (some "T") 3 respFound800).cache
            "codeforces" (some "T") n2 resp2 =
          ⟨some ⟨some 800⟩,
            (search_problem [] "codeforces" (some "T") 3 respFound800).cache, [], 0⟩) :=
  ⟨by decide,
   C4_found_is_cached [] "codeforces" (some "T") 3 respFound800 ⟨some 800⟩ (by decide)⟩

/-! ## Claim C7 -/

/-- A network that always answers HTTP 404. -/
def resp404 : Nat → HttpResp := fun _ => .resp 404 []

/-- C7 counterexample: a constant 404 response is NOT failed immediately:
`response.raise_for_status()` raises `requests.HTTPError`, a subclass of
`requests.RequestException`, which the generic retry arm catches — with
`max_retries = 3` the lookup performs 3 network calls and sleeps twice
(5s, 10s) before giving up. -/
theorem C7_counterexample :
    search_problem [] "codeforces" (some "T") 3 resp404 =
      ⟨none, [], [.requestFailWait 5, .requestFailWait 10, .requestFailGiveUp], 3⟩ ∧
    sleepsOf [LogEvent.requestFailWait 5, LogEvent.requestFailWait 10,
        LogEvent.requestFailGiveUp] = [5, 10] := by
  refine ⟨by decide, by decide⟩

/-- C7 as amended: any 4xx/5xx status other than 429 raises and is
caught by the transport-failure arm, so the lookup is retried with
linear backoff `5 * (attempt + 1)` up to `max_retries` attempts and then
fails with the `None` result after the transport give-up diagnostic. -/
theorem C7_http_error_is_retried (title : Option String) (n code : Nat)
    (hn : 1 ≤ n) (h4 : 400 ≤ code) (h6 : code < 600) (hne : code ≠ 429) :
    search_problem [] "codeforces" title n (fun _ => .resp code []) =
      ⟨none, [],
        (List.range (n - 1)).map (fun i => LogEvent.requestFailWait (5 * (i + 1))) ++
          [.requestFailGiveUp], n⟩ := by
  rw [search_problem_miss [] "codeforces" title n (fun _ => .resp code [])
      "codeforces.com" rfl rfl,
    searchLoop_allHttpErr code h4 h6 hne _ _ n hn 0 [] 0]
  simp

/-- Witness for `C7_http_error_is_retried` at status 404, 3 attempts. -/
theorem C7_witness :
    ((1 : Nat) ≤ 3 ∧ 400 ≤ 404 ∧ 404 < 600 ∧ (404 : Nat) ≠ 429) ∧
    search_problem [] "codeforces" (some "X") 3 (fun _ => .resp 404 []) =
      ⟨none, [],
        (List.range 2).map (fun i => LogEvent.requestFailWait (5 * (i + 1))) ++
          [.requestFailGiveUp], 3⟩ :=
  ⟨⟨by decide, by decide, by decide, by decide⟩,
   C7_http_error_is_retried (some "X") 3 404 (by decide) (by decide) (by decide)
     (by decide)⟩

/-! ## Claim C8 -/

/-- First pre-cached problem for the C8 run. -/
def cachedP1 : Problem := mkProblem "codeforces" "1" "A" (some "T1") ""

/-- Second pre-cached problem for the C8 run. -/
def cachedP2 : Problem := mkProblem "codeforces" "1" "B" (some "T2") ""

/-- A cache already holding both problems' ratings. -/
def preCache : List (String × ClistObj) :=
  [("codeforces-T1", ⟨some 800⟩), ("codeforces-T2", ⟨some 900⟩)]

/-- C8 counterexample: both lookups are answered from the cache (zero
network calls), yet the batch still sleeps the inter-request delay once
— `time.sleep(delay)` runs after every problem except the last
regardless of cache hits (`fetcher.py` lines 163-164), refuting "cache
hits incur no delay". -/
theorem C8_counterexample :
    (fetch_ratings_batch preCache [cachedP1, cachedP2] 5 fun _ _ => .netError).2.2.2
        = 0 ∧
    (fetch_ratings_batch preCache [cachedP1, cachedP2] 5 fun _ _ => .netError).2.2.1
        = [5] := by
  refine ⟨by decide, by decide⟩

theorem batchLoop_all_cached (resp : Nat → Nat → HttpResp) (delay : Nat) :
    ∀ (problems : List Problem) (cache : List (String × ClistObj)) (i : Nat),
      (∀ p ∈ problems, (resourceOf p.platform).isSome = true ∧
          (alookup cache (cacheKeyOf p)).isSome = true) →
      (batchLoop resp delay cache i problems).2.1 = cache ∧
      (batchLoop resp delay cache i problems).2.2.1 =
        List.replicate (problems.length - 1) delay ∧
      (batchLoop resp delay cache i problems).2.2.2 = 0 := by
  intro problems
  induction problems with
  | nil =>
    intro cache i h
    simp [batchLoop]
  | cons p rest ih =>
    intro cache i h
    obtain ⟨h1, h2⟩ := h p (List.mem_cons_self _ _)
    obtain ⟨rsrc, hro⟩ := Option.isSome_iff_exists.mp h1
    obtain ⟨v, hal⟩ := Option.isSome_iff_exists.mp h2
    have hfr2 : (fetch_rating cache p (resp i)).2 = ⟨some v, cache, [], 0⟩ := by
      rw [fetch_rating_snd]
      exact search_problem_cache_hit cache p.platform p.title 3 (resp i) rsrc v hro hal
    have hrest := ih cache (i + 1) (fun q hq => h q (List.mem_cons_of_mem _ hq))
    simp only [batchLoop, hfr2]
    refine ⟨hrest.1, ?_, ?_⟩
    · cases rest with
      | nil =>
        simp [batchLoop, sleepsOf]
      | cons r0 rs =>
        simp [sleepsOf, hrest.2.1, List.replicate_succ]
    · simp [hrest.2.2]

/-- C8 as amended: the batch is strictly sequential and sleeps the
configured delay after every problem except the last, whether or not the
lookup was answered from the cache: when every problem's (platform,
title) key is already cached, the batch performs zero network calls,
leaves the cache unchanged, and still sleeps `length - 1` times. -/
theorem C8_cached_batch_still_delays (cache : List (String × ClistObj))
    (problems : List Problem) (delay : Nat) (resp : Nat → Nat → HttpResp)
    (h : ∀ p ∈ problems, (resourceOf p.platform).isSome = true ∧
        (alookup cache (cacheKeyOf p)).isSome = true) :
    (fetch_ratings_batch cache problems delay resp).2.2.2 = 0 ∧
    (fetch_ratings_batch cache problems delay resp).2.2.1 =
      List.replicate (problems.length - 1) delay ∧
    (fetch_ratings_batch cache problems delay resp).2.1 = cache := by
  have hb := batchLoop_all_cached resp delay problems cache 0 h
  exact ⟨hb.2.2, hb.2.1, hb.1⟩

/-- Witness for `C8_cached_batch_still_delays` on the two pre-cached
problems: 0 network calls, one delay sleep. -/
theorem C8_witness :
    (∀ p ∈ [cachedP1, cachedP2], (resourceOf p.platform).isSome = true ∧
        (alookup preCache (cacheKeyOf p)).isSome = true) ∧
    ((fetch_ratings_batch preCache [cachedP1, cachedP2] 5 fun _ _ => .netError).2.2.2
        = 0 ∧
      (fetch_ratings_batch preCache [cachedP1, cachedP2] 5 fun _ _ => .netError).2.2.1
        = List.replicate 1 5 ∧
      (fetch_ratings_batch preCache [cachedP1, cachedP2] 5 fun _ _ => .netError).2.1
        = preCache) :=
  ⟨by decide,
   C8_cached_batch_still_delays preCache [cachedP1, cachedP2] 5 (fun _ _ => .netError)
     (by decide)⟩

/-! ## Claim C10 -/

theorem batchLoop_no_zero (resp : Nat → Nat → HttpResp) (delay : Nat) :
    ∀ (problems : List Problem) (cache : List (String × ClistObj)) (i : Nat),
      (∀ p ∈ problems, p.clist_rating ≠ some 0) →
      ∀ q ∈ (batchLoop resp delay cache i problems).1, q.clist_rating ≠ some 0 := by
  intro problems
  induction problems with
  | nil =>
    intro cache i h q hq
    simp [batchLoop] at hq
  | cons p rest ih =>
    intro cache i h q hq
    simp only [batchLoop] at hq
    rcases List.mem_cons.mp hq with heq | hq2
    · cases hr : (fetch_rating cache p (resp i)).1 with
      | none =>
        rw [hr] at heq
        simp only at heq
        rw [heq]
        exact h p (List.mem_cons_self _ _)
      | some v =>
        rw [hr] at heq
        simp only at heq
        have hnz : ¬ v = 0 := by
          intro h0
          exact fetch_rating_ne_zero cache p (resp i) (by rw [hr, h0])
        rw [heq]
        simp [hnz]
    · exact ih _ (i + 1) (fun r hrm => h r (List.mem_cons_of_mem _ hrm)) q hq2

/-- C10: a successful aggregator lookup whose first match carries
`rating = 0` yields the not-found result `None` (`if rating:` is falsy at
0), so batch enrichment leaves that problem's rating unset; at the
public interface `fetch_rating` never returns 0 and no batched problem
ever ends up with `clist_rating = 0`. -/
theorem C10_zero_rating_left_unset :
    (∀ (cache : List (String × ClistObj)) (p : Problem) (resp : Nat → HttpResp)
        (info : ClistObj),
        (search_problem cache p.platform p.title 3 resp).found = some info →
        info.rating = some 0 → (fetch_rating cache p resp).1 = none) ∧
    (∀ (cache : List (String × ClistObj)) (p : Problem) (resp : Nat → HttpResp),
        (fetch_rating cache p resp).1 ≠ some 0) ∧
    (∀ (resp : Nat → Nat → HttpResp) (delay : Nat) (problems : List Problem)
        (cache : List (String × ClistObj)),
        (∀ p ∈ problems, p.clist_rating ≠ some 0) →
        ∀ q ∈ (fetch_ratings_batch cache problems delay resp).1,
          q.clist_rating ≠ some 0) := by
  refine ⟨?_, fetch_rating_ne_zero, ?_⟩
  · intro cache p resp info hf hr
    unfold fetch_rating
    simp [hf, hr]
  · intro resp delay problems cache h q hq
    exact batchLoop_no_zero resp delay problems cache 0 h q hq

/-- A network that answers 200 with one match rated 0. -/
def respZero : Nat → HttpResp := fun _ => .resp 200 [⟨some 0⟩]

/-- The problem whose rating is looked up in the C10 witness. -/
def lkP : Problem := mkProblem "codeforces" "1" "A" (some "T") ""

/-- Witness for `C10_zero_rating_left_unset` at a concrete zero-rating
lookup. -/
theorem C10_witness :
    (search_problem [] lkP.platform lkP.title 3 respZero).found = some ⟨some 0⟩ ∧
    (fetch_rating [] lkP respZero).1 = none ∧
    (∀ p ∈ [lkP], p.clist_rating ≠ some 0) ∧
    (∀ q ∈ (fetch_ratings_batch [] [lkP] 5 fun _ => respZero).1,
        q.clist_rating ≠ some 0) :=
  ⟨by decide, C10_zero_rating_left_unset.1 [] lkP respZero ⟨some 0⟩ (by decide) rfl,
   by decide,
   C10_zero_rating_left_unset.2.2 (fun _ => respZero) 5 [lkP] [] (by decide)⟩
